import Mathlib

/-!
Verification of the viernes-e2e Cypress test-support layer.

The development shallowly embeds the custom command layer of the test suite
(`cypress/support/e2e/viernes/commands.ts`), the Firebase test utilities, and
the page objects, and proves the specified properties about them.  Browser
side effects (visits, storage clears, IndexedDB deletions, session creation)
are embedded as explicit action traces; the pieces of the system that are not
part of the repository snapshot (the `@support/helpers` module and the web
application under test) are modelled from the specification and say so in
their doc comments.
-/

namespace ViernesE2E

/-! ## Basic string machinery

JavaScript strings are modelled as Lean `String`s; the character-level
operations the suite relies on (`split`, `includes`, URL-encoding) are
defined over `List Char`.
-/

/-- JavaScript `hay.includes(needle)` / Chai `contain` on `List Char`:
`needle` occurs as a contiguous substring of `hay` — it is a prefix at some
position. -/
def containsSub : List Char → List Char → Bool
  | [], needle => needle.isPrefixOf []
  | c :: t, needle => needle.isPrefixOf (c :: t) || containsSub t needle

/-- JavaScript `hay.includes(needle)` on strings. -/
def strContains (hay needle : String) : Bool :=
  containsSub hay.data needle.data

/-- JavaScript `s.split(sep)` for a one-character separator. -/
def splitOnChar (sep : Char) : List Char → List (List Char)
  | [] => [[]]
  | c :: cs =>
    if c = sep then [] :: splitOnChar sep cs
    else
      match splitOnChar sep cs with
      | [] => [[c]]
      | h :: t => (c :: h) :: t

/-- JavaScript `s.split(sep)[i]`: `none` models `undefined` when the index is
out of range. -/
def jsSplitGet (s : String) (sep : Char) (i : Nat) : Option String :=
  ((splitOnChar sep s.data).get? i).map String.mk

/-! ## The generated reset code (`generateResetCode`)

Source (`commands.ts`):
```
const chars = 'ABCDEFGHIJKLMNOPQRSTUVWXYZabcdefghijklmnopqrstuvwxyz0123456789-_'
let result = ''
for (let i = 0; i < 120; i++) {
  result += chars.charAt(Math.floor(Math.random() * chars.length))
}
```
The value `Math.floor(Math.random() * chars.length)` of the `i`-th loop
iteration is a uniformly random index below `chars.length = 64`; the random
source is modelled as a function `r : Nat → Fin 64` giving that index for
each iteration.
-/

/-- The `chars` constant of `generateResetCode`. -/
def oobAlphabet : List Char :=
  "ABCDEFGHIJKLMNOPQRSTUVWXYZabcdefghijklmnopqrstuvwxyz0123456789-_".data

/-- `generateResetCode`, with the random draws supplied by `r`.
`chars.charAt i` for `i < chars.length` is `oobAlphabet.getD i`. -/
def generateResetCode (r : Nat → Fin 64) : String :=
  String.mk ((List.range 120).map fun i => oobAlphabet.getD (r i).val 'A')

/-- ASCII uppercase letter. -/
def isAsciiUpper (c : Char) : Bool := 'A' ≤ c && c ≤ 'Z'

/-- ASCII lowercase letter. -/
def isAsciiLower (c : Char) : Bool := 'a' ≤ c && c ≤ 'z'

/-- ASCII digit. -/
def isAsciiDigit (c : Char) : Bool := '0' ≤ c && c ≤ '9'

theorem oobAlphabet_length : oobAlphabet.length = 64 := by decide

theorem oobAlphabet_charClasses :
    ∀ c ∈ oobAlphabet,
      isAsciiUpper c || isAsciiLower c || isAsciiDigit c || c = '-' || c = '_' := by
  decide

theorem generateResetCode_data (r : Nat → Fin 64) :
    (generateResetCode r).data = (List.range 120).map fun i => oobAlphabet.getD (r i).val 'A' :=
  rfl

theorem generateResetCode_mem_alphabet (r : Nat → Fin 64) :
    ∀ c ∈ (generateResetCode r).data, c ∈ oobAlphabet := by
  intro c hc
  rw [generateResetCode_data] at hc
  rcases List.mem_map.mp hc with ⟨i, _, rfl⟩
  have hlt : (r i).val < oobAlphabet.length := by
    rw [oobAlphabet_length]; exact (r i).isLt
  rw [List.getD_eq_getElem _ _ hlt]
  exact List.getElem_mem hlt

/-- C2: every string returned by `generateResetCode` has length exactly 120
and all of its characters come from the 64-character alphabet of uppercase
letters, lowercase letters, digits, hyphen and underscore. -/
theorem generateResetCode_length_and_alphabet (r : Nat → Fin 64) :
    (generateResetCode r).length = 120 ∧
    oobAlphabet.length = 64 ∧
    ∀ c ∈ (generateResetCode r).data,
      c ∈ oobAlphabet ∧
      (isAsciiUpper c || isAsciiLower c || isAsciiDigit c || c = '-' || c = '_') := by
  refine ⟨?_, oobAlphabet_length, ?_⟩
  · show (generateResetCode r).data.length = 120
    rw [generateResetCode_data]
    simp
  · intro c hc
    have hmem := generateResetCode_mem_alphabet r c hc
    exact ⟨hmem, oobAlphabet_charClasses c hmem⟩

/-! ## `URLSearchParams`

The commands use the browser's `URLSearchParams` both to serialize the reset
URL query string (`generateResetUrl`, `ResetPasswordPage.visit`) and to parse
it back (`completePasswordResetFlow`).  The WHATWG
`application/x-www-form-urlencoded` serializer keeps ASCII alphanumerics and
`*`, `-`, `.`, `_`, turns a space into `+`, and percent-encodes everything
else; the parser splits on `&`, drops empty segments, splits each segment at
its first `=`, and percent-decodes names and values.  Percent-encoding is
modelled at the character level (for ASCII this coincides with the byte-level
definition; every string the suite feeds through it is ASCII).
-/

/-- Characters the `application/x-www-form-urlencoded` serializer keeps
verbatim. -/
def formSafeChar (c : Char) : Bool :=
  isAsciiUpper c || isAsciiLower c || isAsciiDigit c ||
    c = '*' || c = '-' || c = '.' || c = '_'

/-- Uppercase hex digit for a value below 16. -/
def hexDigitChar (n : Nat) : Char :=
  if n < 10 then Char.ofNat ('0'.toNat + n) else Char.ofNat ('A'.toNat + (n - 10))

/-- Percent-escape of one (ASCII) character. -/
def percentEncodeChar (c : Char) : List Char :=
  ['%', hexDigitChar (c.toNat / 16 % 16), hexDigitChar (c.toNat % 16)]

/-- `application/x-www-form-urlencoded` encoding of a character list. -/
def formEncodeList : List Char → List Char
  | [] => []
  | c :: cs =>
    (if c = ' ' then ['+'] else if formSafeChar c then [c] else percentEncodeChar c)
      ++ formEncodeList cs

/-- `application/x-www-form-urlencoded` encoding of a string. -/
def formEncode (s : String) : String := String.mk (formEncodeList s.data)

/-- Join a list of strings with a separator (the `&`-join performed by
`URLSearchParams.toString`). -/
def joinWith (sep : String) : List String → String
  | [] => ""
  | [x] => x
  | x :: xs => x ++ sep ++ joinWith sep xs

/-- `URLSearchParams.toString` on an ordered list of name/value pairs. -/
def urlSearchParamsToString (ps : List (String × String)) : String :=
  joinWith "&" (ps.map fun p => formEncode p.1 ++ "=" ++ formEncode p.2)

/-- Hexadecimal digit test. -/
def isHexDigitChar (c : Char) : Bool :=
  ('0' ≤ c && c ≤ '9') || ('A' ≤ c && c ≤ 'F') || ('a' ≤ c && c ≤ 'f')

/-- Value of a hexadecimal digit. -/
def hexVal (c : Char) : Nat :=
  if '0' ≤ c && c ≤ '9' then c.toNat - '0'.toNat
  else if 'A' ≤ c && c ≤ 'F' then c.toNat - 'A'.toNat + 10
  else c.toNat - 'a'.toNat + 10

/-- `application/x-www-form-urlencoded` decoding: `+` becomes a space and a
`%` followed by two hex digits becomes the encoded (ASCII) character; a
malformed escape is kept verbatim, as the WHATWG parser does. -/
def formDecodeList : List Char → List Char
  | [] => []
  | c :: c1 :: c2 :: rest =>
    if c = '+' then ' ' :: formDecodeList (c1 :: c2 :: rest)
    else if c = '%' then
      (if isHexDigitChar c1 && isHexDigitChar c2 then
        Char.ofNat (16 * hexVal c1 + hexVal c2) :: formDecodeList rest
      else c :: formDecodeList (c1 :: c2 :: rest))
    else c :: formDecodeList (c1 :: c2 :: rest)
  | c :: cs =>
    if c = '+' then ' ' :: formDecodeList cs
    else c :: formDecodeList cs

/-- The `URLSearchParams` string constructor drops one leading `?`. -/
def stripLeadingQuestion (cs : List Char) : List Char :=
  match cs with
  | [] => []
  | c :: rest => if c = '?' then rest else c :: rest

/-- Split a list at the first occurrence of `sep`; `none` when `sep` does not
occur. -/
def breakAtChar (sep : Char) : List Char → Option (List Char × List Char)
  | [] => none
  | c :: cs =>
    if c = sep then some ([], cs)
    else
      match breakAtChar sep cs with
      | none => none
      | some (a, b) => some (c :: a, b)

/-- One `name=value` query segment: the name is everything before the first
`=` (the whole segment when there is none), the value everything after. -/
def parseSegment (seg : List Char) : List Char × List Char :=
  match breakAtChar '=' seg with
  | some (n, v) => (n, v)
  | none => (seg, [])

/-- The ordered name/value pairs `URLSearchParams` parses out of a query
string. -/
def urlSearchParamsPairs (init : List Char) : List (List Char × List Char) :=
  ((splitOnChar '&' (stripLeadingQuestion init)).filter (fun seg => !seg.isEmpty)).map
    fun seg => (formDecodeList (parseSegment seg).1, formDecodeList (parseSegment seg).2)

/-- `URLSearchParams.get`: the value of the first pair with the given name,
`null` (`none`) when absent. -/
def urlSearchParamsGet (init : String) (name : String) : Option String :=
  ((urlSearchParamsPairs init.data).find? fun p => p.1 == name.data).map
    fun p => String.mk p.2

/-! ## Route resolution (`@support/helpers`) -/

/-- Modelled from the spec: the route table maps a logical page name to a URL
path, merged from common and environment-specific fixture files; the
`commonPaths` entries here are the ones the repository documents for this
product (`routes.json`). -/
def commonPaths : List (String × String) :=
  [("login", "/login"), ("forgotPassword", "/auth/boxed-password-reset"),
   ("resetPassword", "/resetPassword"), ("dashboard", "/"), ("home", "/")]

/-- Modelled from the spec: `getUrl` (the spec's `resolveUrl`) resolves a
logical page name against the environment base URL `base`; the name
`baseUrl` resolves to the base itself.  The `@support/helpers` module is not
part of the repository snapshot; every name the commands pass to `getUrl`
resolves in `commonPaths`. -/
def getUrl (base name : String) : String :=
  if name = "baseUrl" then base
  else base ++ ((commonPaths.lookup name).getD "")

/-! ## `generateResetUrl` and the oobCode round trip -/

/-- `generateResetUrl` from `commands.ts`: the `cy.generateResetCode().then`
chain is modelled by passing the already generated code; the `email`
argument is accepted and unused exactly as in the source, and
`...(apiKey && { apiKey })` spreads the `apiKey` entry only when `apiKey` is
truthy (present and non-empty). -/
def generateResetUrl (base : String) (_email : Option String) (apiKey : Option String)
    (oobCode : String) : String :=
  let params : List (String × String) :=
    [("mode", "resetPassword"), ("oobCode", oobCode)] ++
      (match apiKey with
       | some k => if k = "" then [] else [("apiKey", k)]
       | none => [])
  getUrl base "resetPassword" ++ "?" ++ urlSearchParamsToString params

/-- The oobCode extraction `completePasswordResetFlow` performs:
`new URLSearchParams(resetUrl.split('?')[1]).get('oobCode')`.  When
`split('?')[1]` is `undefined` the parameter list is empty, hence `none`. -/
def extractOobCode (resetUrl : String) : Option String :=
  match jsSplitGet resetUrl '?' 1 with
  | none => none
  | some q => urlSearchParamsGet q "oobCode"

theorem formEncodeList_eq_self {cs : List Char}
    (h : ∀ c ∈ cs, formSafeChar c = true) : formEncodeList cs = cs := by
  induction cs with
  | nil => rfl
  | cons c cs ih =>
    have hc := h c (List.mem_cons_self c cs)
    have hspace : ¬(c = ' ') := by
      intro hEq
      rw [hEq] at hc
      exact absurd hc (by decide)
    rw [formEncodeList, if_neg hspace, if_pos hc,
      ih fun d hd => h d (List.mem_cons_of_mem _ hd)]
    rfl

theorem formDecodeList_eq_self {cs : List Char}
    (h : ∀ c ∈ cs, ¬(c = '+') ∧ ¬(c = '%')) : formDecodeList cs = cs := by
  induction cs using formDecodeList.induct <;>
    simp_all [formDecodeList]

theorem splitOnChar_of_not_mem {sep : Char} {cs : List Char} (h : sep ∉ cs) :
    splitOnChar sep cs = [cs] := by
  induction cs with
  | nil => rfl
  | cons c cs ih =>
    have hne : ¬(c = sep) := fun hEq => h (hEq ▸ List.mem_cons_self c cs)
    have hrest := ih fun hm => h (List.mem_cons_of_mem _ hm)
    rw [splitOnChar, if_neg hne, hrest]

theorem splitOnChar_append_sep {sep : Char} {a b : List Char} (h : sep ∉ a) :
    splitOnChar sep (a ++ sep :: b) = a :: splitOnChar sep b := by
  induction a with
  | nil =>
    show splitOnChar sep (sep :: b) = [] :: splitOnChar sep b
    rw [splitOnChar, if_pos rfl]
  | cons c cs ih =>
    have hne : ¬(c = sep) := fun hEq => h (hEq ▸ List.mem_cons_self c cs)
    have hrest := ih fun hm => h (List.mem_cons_of_mem _ hm)
    show splitOnChar sep (c :: (cs ++ sep :: b)) = (c :: cs) :: splitOnChar sep b
    rw [splitOnChar, if_neg hne, hrest]

theorem breakAtChar_append {sep : Char} {a b : List Char} (h : sep ∉ a) :
    breakAtChar sep (a ++ sep :: b) = some (a, b) := by
  induction a with
  | nil =>
    show breakAtChar sep (sep :: b) = some ([], b)
    rw [breakAtChar, if_pos rfl]
  | cons c cs ih =>
    have hne : ¬(c = sep) := fun hEq => h (hEq ▸ List.mem_cons_self c cs)
    have hrest := ih fun hm => h (List.mem_cons_of_mem _ hm)
    show breakAtChar sep (c :: (cs ++ sep :: b)) = some (c :: cs, b)
    rw [breakAtChar, if_neg hne, hrest]

theorem oobAlphabet_formSafe : ∀ c ∈ oobAlphabet, formSafeChar c = true := by
  decide

theorem oobAlphabet_not_special :
    ∀ c ∈ oobAlphabet,
      ¬(c = '&') ∧ ¬(c = '=') ∧ ¬(c = '?') ∧ ¬(c = '+') ∧ ¬(c = '%') := by
  decide

theorem stripLeadingQuestion_of_not_mem {cs : List Char} (h : '?' ∉ cs) :
    stripLeadingQuestion cs = cs := by
  cases cs with
  | nil => rfl
  | cons c rest =>
    have hne : ¬(c = '?') := fun hEq => h (hEq ▸ List.mem_cons_self _ _)
    simp [stripLeadingQuestion, hne]

theorem getUrl_resetPassword (base : String) :
    getUrl base "resetPassword" = base ++ "/resetPassword" := rfl

theorem getUrl_login (base : String) :
    getUrl base "login" = base ++ "/login" := rfl

theorem generateResetCode_formSafe (r : Nat → Fin 64) :
    ∀ c ∈ (generateResetCode r).data, formSafeChar c = true :=
  fun c hc => oobAlphabet_formSafe c (generateResetCode_mem_alphabet r c hc)

/-- C1: for every oobCode produced by `generateResetCode`, `generateResetUrl`
returns the `resetPassword` route followed by a query string embedding
`mode=resetPassword` and the code as `oobCode`, and parsing that URL's query
string the way `completePasswordResetFlow` does (`URLSearchParams` over
`split('?')[1]`) yields the original code back unchanged. -/
theorem generateResetUrl_roundtrip (base : String) (r : Nat → Fin 64)
    (hbase : '?' ∉ base.data) :
    generateResetUrl base none none (generateResetCode r)
      = getUrl base "resetPassword" ++ "?mode=resetPassword&oobCode=" ++ generateResetCode r
    ∧ extractOobCode (generateResetUrl base none none (generateResetCode r))
      = some (generateResetCode r) := by
  have hmem : ∀ c ∈ (generateResetCode r).data, c ∈ oobAlphabet :=
    generateResetCode_mem_alphabet r
  have henc : formEncode (generateResetCode r) = generateResetCode r := by
    show String.mk (formEncodeList (generateResetCode r).data) = generateResetCode r
    rw [formEncodeList_eq_self (generateResetCode_formSafe r)]
  have key : generateResetUrl base none none (generateResetCode r)
      = base ++ "/resetPassword" ++ "?" ++
          ("mode=resetPassword" ++ "&" ++ ("oobCode=" ++ generateResetCode r)) := by
    have k0 : generateResetUrl base none none (generateResetCode r)
        = base ++ "/resetPassword" ++ "?" ++
            ("mode=resetPassword" ++ "&" ++
              ("oobCode=" ++ formEncode (generateResetCode r))) := rfl
    rw [k0, henc]
  have hUdata : (base ++ "/resetPassword" ++ "?" ++
        ("mode=resetPassword" ++ "&" ++ ("oobCode=" ++ generateResetCode r))).data
      = (base.data ++ "/resetPassword".data) ++
          '?' :: ("mode=resetPassword".data ++
            '&' :: ("oobCode=".data ++ (generateResetCode r).data)) := by
    simp only [String.data_append, List.append_assoc]
    rfl
  constructor
  · rw [key, getUrl_resetPassword]
    apply String.ext
    simp only [String.data_append, List.append_assoc]
    rfl
  · rw [key]
    have hnq : '?' ∉ base.data ++ "/resetPassword".data := by
      intro hm
      rcases List.mem_append.mp hm with h1 | h1
      · exact hbase h1
      · exact absurd h1 (by decide)
    have hnoamp : '&' ∉ "oobCode=".data ++ (generateResetCode r).data := by
      intro hm
      rcases List.mem_append.mp hm with h1 | h1
      · exact absurd h1 (by decide)
      · exact (oobAlphabet_not_special '&' (hmem '&' h1)).1 rfl
    have hnq2 : '?' ∉ "mode=resetPassword".data ++
        '&' :: ("oobCode=".data ++ (generateResetCode r).data) := by
      intro hm
      rcases List.mem_append.mp hm with h1 | h1
      · exact absurd h1 (by decide)
      · rcases List.mem_cons.mp h1 with h2 | h2
        · exact absurd h2 (by decide)
        · rcases List.mem_append.mp h2 with h3 | h3
          · exact absurd h3 (by decide)
          · exact (oobAlphabet_not_special '?' (hmem '?' h3)).2.2.1 rfl
    have hdec : formDecodeList (generateResetCode r).data = (generateResetCode r).data :=
      formDecodeList_eq_self fun c hc =>
        ⟨(oobAlphabet_not_special c (hmem c hc)).2.2.2.1,
          (oobAlphabet_not_special c (hmem c hc)).2.2.2.2⟩
    have hbreak : breakAtChar '=' ("oobCode=".data ++ (generateResetCode r).data)
        = some ("oobCode".data, (generateResetCode r).data) := by
      have hsh : "oobCode=".data ++ (generateResetCode r).data
          = "oobCode".data ++ '=' :: (generateResetCode r).data := rfl
      rw [hsh, breakAtChar_append (by decide)]
    have hne2 : ("oobCode=".data ++ (generateResetCode r).data).isEmpty = false := by
      rw [show "oobCode=".data ++ (generateResetCode r).data
          = 'o' :: ("obCode=".data ++ (generateResetCode r).data) from rfl]
      rfl
    have hpairs : urlSearchParamsPairs ("mode=resetPassword".data ++
          '&' :: ("oobCode=".data ++ (generateResetCode r).data))
        = [("mode".data, "resetPassword".data),
           ("oobCode".data, (generateResetCode r).data)] := by
      have hp1 : parseSegment "mode=resetPassword".data
          = ("mode".data, "resetPassword".data) := rfl
      have hd1 : formDecodeList "mode".data = "mode".data := rfl
      have hd2 : formDecodeList "resetPassword".data = "resetPassword".data := rfl
      have hd3 : formDecodeList "oobCode".data = "oobCode".data := rfl
      have hp2 : parseSegment ("oobCode=".data ++ (generateResetCode r).data)
          = ("oobCode".data, (generateResetCode r).data) := by
        unfold parseSegment
        rw [hbreak]
      have hp2' : parseSegment
          ('o' :: 'o' :: 'b' :: 'C' :: 'o' :: 'd' :: 'e' :: '=' :: (generateResetCode r).data)
          = ("oobCode".data, (generateResetCode r).data) := hp2
      unfold urlSearchParamsPairs
      rw [stripLeadingQuestion_of_not_mem hnq2, splitOnChar_append_sep (by decide),
        splitOnChar_of_not_mem hnoamp]
      simp [List.filter, hne2, hp1, hp2, hp2', hd1, hd2, hd3, hdec]
    unfold extractOobCode jsSplitGet
    rw [hUdata, splitOnChar_append_sep hnq, splitOnChar_of_not_mem hnq2]
    show urlSearchParamsGet (String.mk ("mode=resetPassword".data ++
        '&' :: ("oobCode=".data ++ (generateResetCode r).data))) "oobCode"
      = some (generateResetCode r)
    unfold urlSearchParamsGet
    rw [show (String.mk ("mode=resetPassword".data ++
        '&' :: ("oobCode=".data ++ (generateResetCode r).data))).data
      = "mode=resetPassword".data ++
        '&' :: ("oobCode=".data ++ (generateResetCode r).data) from rfl]
    rw [hpairs]
    simp [List.find?]

/-- Witness for C1 at a concrete environment base URL and random source. -/
theorem generateResetUrl_roundtrip_witness :
    generateResetUrl "https://staging.viernes.app" none none
        (generateResetCode fun _ => (0 : Fin 64))
      = getUrl "https://staging.viernes.app" "resetPassword" ++
          "?mode=resetPassword&oobCode=" ++ generateResetCode (fun _ => (0 : Fin 64))
    ∧ extractOobCode (generateResetUrl "https://staging.viernes.app" none none
        (generateResetCode fun _ => (0 : Fin 64)))
      = some (generateResetCode fun _ => (0 : Fin 64)) :=
  generateResetUrl_roundtrip "https://staging.viernes.app" (fun _ => (0 : Fin 64))
    (by decide)

/-! ## Browser action traces

Each custom command is a straight-line sequence of Cypress calls; a command
is embedded as the list of browser-facing actions it issues, in order.
`session name setup validate` is `cy.session`: the cached session keyed by
`name`, established by the `setup` actions and revalidated by the `validate`
actions.
-/

/-- One browser-facing Cypress action. -/
inductive CyAction where
  | visit (url : String)
  | urlShouldContain (s : String)
  | urlShouldNotContain (s : String)
  | urlShouldMatchDashboard
  | getElement (selector : String)
  | clearField (selector : String)
  | typeInto (selector : String) (text : String)
  | clickElement (selector : String)
  | wait (ms : Nat)
  | clearLocalStorage
  | clearCookies
  | clearSessionStorage
  | deleteIndexedDB (dbName : String)
  | session (name : String) (setup : List CyAction) (validate : List CyAction)
deriving Repr

/-- `FIREBASE_AUTH_DELAY` from `commands.ts`. -/
def FIREBASE_AUTH_DELAY : Nat := 50

/-- Modelled from the spec: a user credential record (email/password pair)
loaded from fixtures at suite start. -/
structure Credentials where
  email : String
  password : String

/-- Modelled from the spec: the named credential roles returned by the
support helpers (`users.primary`, `users.secondary`). -/
structure Users where
  primary : Credentials
  secondary : Credentials

/-- JavaScript `v || d` for an optional string argument: `undefined` and the
empty string both fall back to the default. -/
def jsOrDefault (v : Option String) (d : String) : String :=
  match v with
  | none => d
  | some s => if s = "" then d else s

/-- The options object of `login`, with the source's defaults. -/
structure LoginOptions where
  cacheSession : Bool := true
  skipSessionCache : Bool := false
  visitLoginPage : Bool := true

/-- `performLogin` from `commands.ts`: the full UI login flow. -/
def performLogin (base : String) (email password : String)
    (visitLoginPage : Bool) : List CyAction :=
  (if visitLoginPage then [CyAction.visit (getUrl base "login")] else []) ++
  [CyAction.getElement "[data-testid=\"login-form\"]",
   CyAction.clearField "[data-testid=\"email-input\"]",
   CyAction.typeInto "[data-testid=\"email-input\"]" email,
   CyAction.wait FIREBASE_AUTH_DELAY,
   CyAction.clearField "[data-testid=\"password-input\"]",
   CyAction.typeInto "[data-testid=\"password-input\"]" password,
   CyAction.wait FIREBASE_AUTH_DELAY,
   CyAction.clickElement "[data-testid=\"login-submit-button\"]",
   CyAction.wait (FIREBASE_AUTH_DELAY * 2),
   CyAction.urlShouldNotContain "/login",
   CyAction.urlShouldMatchDashboard]

/-- `login` from `commands.ts`: session-cached login.  The defaulting of the
`email`/`password` arguments uses JavaScript `||`, the session name is
`viernes-auth-` followed by the email in use, and the session is revalidated
by visiting the base URL and asserting the URL does not contain `/login`. -/
def login (base : String) (users : Users) (email password : Option String)
    (opts : LoginOptions) : List CyAction :=
  let userEmail := jsOrDefault email users.primary.email
  let userPassword := jsOrDefault password users.primary.password
  let sessionName := "viernes-auth-" ++ userEmail
  if opts.cacheSession && !opts.skipSessionCache then
    [CyAction.session sessionName
      (performLogin base userEmail userPassword opts.visitLoginPage)
      [CyAction.visit (getUrl base "baseUrl"), CyAction.urlShouldNotContain "/login"]]
  else
    performLogin base userEmail userPassword opts.visitLoginPage

/-- A concrete credentials fixture used by witnesses. -/
def demoUsers : Users :=
  ⟨⟨"primary@viernes.app", "primary-pass"⟩, ⟨"secondary@viernes.app", "secondary-pass"⟩⟩

/-- C3: with `cacheSession` true (the default) and `skipSessionCache` false,
`login` establishes or reuses the cached session named `viernes-auth-`
followed by the email in use (email and password defaulting to the primary
user), revalidated by visiting the base URL and asserting the resulting URL
does not contain `/login`; with `cacheSession` false or `skipSessionCache`
true it performs the full UI flow via `performLogin` instead. -/
theorem login_session_caching (base : String) (users : Users)
    (email password : Option String) (opts : LoginOptions) :
    (opts.cacheSession = true → opts.skipSessionCache = false →
      login base users email password opts
        = [CyAction.session ("viernes-auth-" ++ jsOrDefault email users.primary.email)
            (performLogin base (jsOrDefault email users.primary.email)
              (jsOrDefault password users.primary.password) opts.visitLoginPage)
            [CyAction.visit (getUrl base "baseUrl"),
             CyAction.urlShouldNotContain "/login"]])
    ∧ ((opts.cacheSession = false ∨ opts.skipSessionCache = true) →
      login base users email password opts
        = performLogin base (jsOrDefault email users.primary.email)
            (jsOrDefault password users.primary.password) opts.visitLoginPage) := by
  constructor
  · intro h1 h2
    simp [login, h1, h2]
  · intro h
    rcases h with h | h <;> simp [login, h]

/-- Witness for C3 with the default options and omitted credentials. -/
theorem login_session_caching_witness :
    login "https://staging.viernes.app" demoUsers none none {}
      = [CyAction.session ("viernes-auth-" ++ jsOrDefault none demoUsers.primary.email)
          (performLogin "https://staging.viernes.app"
            (jsOrDefault none demoUsers.primary.email)
            (jsOrDefault none demoUsers.primary.password)
            ({} : LoginOptions).visitLoginPage)
          [CyAction.visit (getUrl "https://staging.viernes.app" "baseUrl"),
           CyAction.urlShouldNotContain "/login"]] :=
  (login_session_caching "https://staging.viernes.app" demoUsers none none {}).1 rfl rfl

/-- C9: the session cache key computed by `login` depends only on the email
argument: for any two passwords, the two runs address a session entry with
the identical name `viernes-auth-` followed by the email in use. -/
theorem login_cache_key_ignores_password (base : String) (users : Users)
    (email : Option String) (p1 p2 : Option String) (opts : LoginOptions)
    (h1 : opts.cacheSession = true) (h2 : opts.skipSessionCache = false) :
    ∃ setup1 setup2 validate,
      login base users email p1 opts
        = [CyAction.session ("viernes-auth-" ++ jsOrDefault email users.primary.email)
            setup1 validate]
      ∧ login base users email p2 opts
        = [CyAction.session ("viernes-auth-" ++ jsOrDefault email users.primary.email)
            setup2 validate] := by
  refine ⟨performLogin base (jsOrDefault email users.primary.email)
      (jsOrDefault p1 users.primary.password) opts.visitLoginPage,
    performLogin base (jsOrDefault email users.primary.email)
      (jsOrDefault p2 users.primary.password) opts.visitLoginPage,
    [CyAction.visit (getUrl base "baseUrl"), CyAction.urlShouldNotContain "/login"],
    ?_, ?_⟩ <;> simp [login, h1, h2]

/-- Witness for C9 with two concrete distinct passwords. -/
theorem login_cache_key_ignores_password_witness :
    ∃ setup1 setup2 validate,
      login "https://staging.viernes.app" demoUsers (some "user@viernes.app")
          (some "pw-alpha") {}
        = [CyAction.session
            ("viernes-auth-" ++
              jsOrDefault (some "user@viernes.app") demoUsers.primary.email)
            setup1 validate]
      ∧ login "https://staging.viernes.app" demoUsers (some "user@viernes.app")
          (some "pw-bravo") {}
        = [CyAction.session
            ("viernes-auth-" ++
              jsOrDefault (some "user@viernes.app") demoUsers.primary.email)
            setup2 validate] :=
  login_cache_key_ignores_password "https://staging.viernes.app" demoUsers
    (some "user@viernes.app") (some "pw-alpha") (some "pw-bravo") {} rfl rfl

/-! ## Firebase state cleanup -/

/-- JavaScript `s.startsWith(p)` (used on IndexedDB database names). -/
def strStartsWith (s p : String) : Bool := p.data.isPrefixOf s.data

/-- The fixed list of well-known Firebase database names in
`clearFirebaseIndexedDBFallback`. -/
def firebaseDBNames : List String :=
  ["firebaseLocalStorageDb", "firebase-app-check-database",
   "firebase-messaging-database", "firebase-installations-database",
   "firebase-analytics-database", "firebase-remote-config-database",
   "firebase-performance-database"]

/-- `clearFirebaseIndexedDBFallback`: issues a delete request for each
well-known Firebase database name. -/
def clearFirebaseIndexedDBFallback : List CyAction :=
  firebaseDBNames.map CyAction.deleteIndexedDB

/-- The IndexedDB environment `clearFirebaseIndexedDB` probes: whether
`indexedDB.databases` exists and, when it does, the database list its
promise resolves to (`none` models the promise rejecting). -/
structure IndexedDBEnv where
  hasDatabasesMethod : Bool
  databasesResult : Option (List String)

/-- `clearFirebaseIndexedDB`: with `indexedDB.databases()` available and
resolving, deletes every reported database whose name starts with
`firebase`; otherwise falls back to the fixed list. -/
def clearFirebaseIndexedDB (env : IndexedDBEnv) : List CyAction :=
  if env.hasDatabasesMethod then
    match env.databasesResult with
    | some dbs =>
      (dbs.filter fun n => strStartsWith n "firebase").map CyAction.deleteIndexedDB
    | none => clearFirebaseIndexedDBFallback
  else
    clearFirebaseIndexedDBFallback

/-- `cleanFirebaseState`: localStorage, cookies, the Firebase IndexedDB
databases, then sessionStorage. -/
def cleanFirebaseState (env : IndexedDBEnv) : List CyAction :=
  [CyAction.clearLocalStorage, CyAction.clearCookies] ++
    clearFirebaseIndexedDB env ++ [CyAction.clearSessionStorage]

/-- C4: every invocation of `cleanFirebaseState` clears local storage,
cookies and session storage, and deletes the IndexedDB databases whose
names start with `firebase` (falling back to deleting the fixed well-known
list when database enumeration is unsupported or fails). -/
theorem cleanFirebaseState_clears_everything (env : IndexedDBEnv) :
    CyAction.clearLocalStorage ∈ cleanFirebaseState env
    ∧ CyAction.clearCookies ∈ cleanFirebaseState env
    ∧ CyAction.clearSessionStorage ∈ cleanFirebaseState env
    ∧ (∀ dbs, env.hasDatabasesMethod = true → env.databasesResult = some dbs →
        ∀ db ∈ dbs, strStartsWith db "firebase" = true →
          CyAction.deleteIndexedDB db ∈ cleanFirebaseState env)
    ∧ ((env.hasDatabasesMethod = false ∨ env.databasesResult = none) →
        ∀ db ∈ firebaseDBNames,
          CyAction.deleteIndexedDB db ∈ cleanFirebaseState env) := by
  refine ⟨by simp [cleanFirebaseState], by simp [cleanFirebaseState],
    by simp [cleanFirebaseState], ?_, ?_⟩
  · intro dbs hm hres db hdb hfb
    have hmid : clearFirebaseIndexedDB env
        = (dbs.filter fun n => strStartsWith n "firebase").map CyAction.deleteIndexedDB := by
      simp [clearFirebaseIndexedDB, hm, hres]
    show CyAction.deleteIndexedDB db
      ∈ [CyAction.clearLocalStorage, CyAction.clearCookies] ++
          clearFirebaseIndexedDB env ++ [CyAction.clearSessionStorage]
    rw [hmid]
    exact List.mem_append_left _ (List.mem_append_right _
      (List.mem_map_of_mem _ (List.mem_filter.mpr ⟨hdb, hfb⟩)))
  · intro h db hdb
    have hmid : clearFirebaseIndexedDB env = clearFirebaseIndexedDBFallback := by
      rcases h with h | h
      · simp [clearFirebaseIndexedDB, h]
      · rcases hm : env.hasDatabasesMethod with _ | _ <;>
          simp [clearFirebaseIndexedDB, hm, h]
    show CyAction.deleteIndexedDB db
      ∈ [CyAction.clearLocalStorage, CyAction.clearCookies] ++
          clearFirebaseIndexedDB env ++ [CyAction.clearSessionStorage]
    rw [hmid]
    exact List.mem_append_left _ (List.mem_append_right _
      (List.mem_map_of_mem _ hdb))

/-- Witness for C4: a modern browser whose database enumeration reports one
Firebase database and one unrelated database. -/
theorem cleanFirebaseState_clears_everything_witness :
    CyAction.clearLocalStorage
      ∈ cleanFirebaseState ⟨true, some ["firebaseLocalStorageDb", "app-cache"]⟩
    ∧ CyAction.clearCookies
      ∈ cleanFirebaseState ⟨true, some ["firebaseLocalStorageDb", "app-cache"]⟩
    ∧ CyAction.clearSessionStorage
      ∈ cleanFirebaseState ⟨true, some ["firebaseLocalStorageDb", "app-cache"]⟩
    ∧ CyAction.deleteIndexedDB "firebaseLocalStorageDb"
      ∈ cleanFirebaseState ⟨true, some ["firebaseLocalStorageDb", "app-cache"]⟩ := by
  obtain ⟨h1, h2, h3, h4, -⟩ :=
    cleanFirebaseState_clears_everything ⟨true, some ["firebaseLocalStorageDb", "app-cache"]⟩
  exact ⟨h1, h2, h3, h4 _ rfl rfl _ (by simp) (by decide)⟩

/-! ## Network interception mocks -/

/-- A JSON-like value for the canned mock response bodies. -/
inductive JsonVal where
  | str (s : String)
  | num (n : Int)
  | arr (elems : List JsonVal)
  | obj (fields : List (String × JsonVal))
deriving Repr

/-- First field with the given name in a JSON object. -/
def JsonVal.getField : JsonVal → String → Option JsonVal
  | .obj fields, k => (fields.find? fun f => f.1 == k).map fun f => f.2
  | _, _ => none

/-- A mocked HTTP response: status code plus JSON body. -/
structure MockResponse where
  statusCode : Nat
  body : JsonVal

/-- A `cy.intercept(method, urlPattern, response).as(...)` registration. -/
structure InterceptSpec where
  method : String
  urlPattern : String
  response : MockResponse
  interceptAlias : String

/-- `mockPasswordResetRequest` from `commands.ts`. -/
def mockPasswordResetRequest (email : String) (shouldSucceed : Bool) : InterceptSpec :=
  { method := "POST"
    urlPattern := "**/identitytoolkit.googleapis.com/v1/accounts:sendOobCode*"
    interceptAlias := "passwordResetRequest"
    response :=
      if shouldSucceed then
        { statusCode := 200
          body := .obj
            [("kind", .str "identitytoolkit#GetOobConfirmationCodeResponse"),
             ("email", .str email)] }
      else
        { statusCode := 400
          body := .obj [("error", .obj
            [("code", .num 400), ("message", .str "EMAIL_NOT_FOUND"),
             ("errors", .arr [.obj
               [("message", .str "EMAIL_NOT_FOUND"), ("domain", .str "global"),
                ("reason", .str "invalid")]])])] } }

/-- `mockPasswordResetConfirmation` from `commands.ts`; the `oobCode`
argument is accepted and, as in the source, never used in the response. -/
def mockPasswordResetConfirmation (_oobCode : String) (shouldSucceed : Bool) :
    InterceptSpec :=
  { method := "POST"
    urlPattern := "**/identitytoolkit.googleapis.com/v1/accounts:resetPassword*"
    interceptAlias := "passwordResetConfirmation"
    response :=
      if shouldSucceed then
        { statusCode := 200
          body := .obj
            [("kind", .str "identitytoolkit#ResetPasswordResponse"),
             ("email", .str "test@example.com"),
             ("requestType", .str "PASSWORD_RESET")] }
      else
        { statusCode := 400
          body := .obj [("error", .obj
            [("code", .num 400), ("message", .str "INVALID_OOB_CODE"),
             ("errors", .arr [.obj
               [("message", .str "INVALID_OOB_CODE"), ("domain", .str "global"),
                ("reason", .str "invalid")]])])] } }

/-- C5: `mockPasswordResetRequest` intercepts the provider's `sendOobCode`
endpoint, returning 200 with a body echoing the email exactly when
`shouldSucceed` is true, and 400 with error message `EMAIL_NOT_FOUND` when
false; `mockPasswordResetConfirmation` intercepts the `resetPassword`
endpoint, returning 200 (a `ResetPasswordResponse`) when true and 400 with
error message `INVALID_OOB_CODE` when false. -/
theorem mock_reset_intercepts (email oobCode : String) :
    (mockPasswordResetRequest email true).urlPattern
      = "**/identitytoolkit.googleapis.com/v1/accounts:sendOobCode*"
    ∧ (mockPasswordResetRequest email false).urlPattern
      = "**/identitytoolkit.googleapis.com/v1/accounts:sendOobCode*"
    ∧ (mockPasswordResetRequest email true).response.statusCode = 200
    ∧ (mockPasswordResetRequest email true).response.body.getField "email"
      = some (JsonVal.str email)
    ∧ (mockPasswordResetRequest email false).response.statusCode = 400
    ∧ ((mockPasswordResetRequest email false).response.body.getField "error").bind
        (fun e => e.getField "message") = some (JsonVal.str "EMAIL_NOT_FOUND")
    ∧ (mockPasswordResetConfirmation oobCode true).urlPattern
      = "**/identitytoolkit.googleapis.com/v1/accounts:resetPassword*"
    ∧ (mockPasswordResetConfirmation oobCode false).urlPattern
      = "**/identitytoolkit.googleapis.com/v1/accounts:resetPassword*"
    ∧ (mockPasswordResetConfirmation oobCode true).response.statusCode = 200
    ∧ (mockPasswordResetConfirmation oobCode true).response.body.getField "kind"
      = some (JsonVal.str "identitytoolkit#ResetPasswordResponse")
    ∧ (mockPasswordResetConfirmation oobCode false).response.statusCode = 400
    ∧ ((mockPasswordResetConfirmation oobCode false).response.body.getField "error").bind
        (fun e => e.getField "message") = some (JsonVal.str "INVALID_OOB_CODE") :=
  ⟨rfl, rfl, rfl, rfl, rfl, rfl, rfl, rfl, rfl, rfl, rfl, rfl⟩

/-- C10: `mockPasswordResetConfirmation` ignores its `oobCode` argument —
for any two codes and the same flag, the installed intercept (URL pattern
and response body included) is identical — and its success response always
reports the fixed email `test@example.com`. -/
theorem mockPasswordResetConfirmation_ignores_code (c1 c2 : String) (succeed : Bool) :
    mockPasswordResetConfirmation c1 succeed = mockPasswordResetConfirmation c2 succeed
    ∧ (mockPasswordResetConfirmation c1 true).response.body.getField "email"
      = some (JsonVal.str "test@example.com") :=
  ⟨rfl, rfl⟩

/-! ## Browser state and the application model

The application under test is not part of this repository; the behavior the
spec attributes to it (redirecting unauthenticated visits to the login
path) is modelled below, and the traces built from the embedded commands
are run against that model.
-/

/-- The browser-persisted state the suite manipulates, plus the current
URL. -/
structure BrowserState where
  url : String
  localStorageKeys : List String
  cookieNames : List String
  sessionStorageKeys : List String
  indexedDBNames : List String

/-- Modelled from the spec: the identity provider persists its credential in
browser storage — Firebase v9+ keeps it in the IndexedDB database
`firebaseLocalStorageDb` (named in the source's own comment), alongside any
session data in localStorage, cookies or sessionStorage.  The user counts as
authenticated while any of it survives. -/
def hasPersistedCredential (st : BrowserState) : Bool :=
  !st.localStorageKeys.isEmpty || !st.cookieNames.isEmpty ||
    !st.sessionStorageKeys.isEmpty ||
    st.indexedDBNames.contains "firebaseLocalStorageDb"

/-- Modelled from the spec: every route is authenticated except the
unauthenticated pages (login and the two password-reset pages). -/
def requiresAuth (url : String) : Bool :=
  !(strContains url "/login" || strContains url "/auth/boxed-password-reset" ||
    strContains url "/resetPassword")

/-- Modelled from the spec: visiting an authenticated route without a
persisted credential redirects the browser to the login path. -/
def appVisit (base : String) (st : BrowserState) (url : String) : String :=
  if requiresAuth url && !hasPersistedCredential st then getUrl base "login" else url

/-- Effect of one action on the browser state; assertions and waits leave
the state unchanged. -/
def applyAction (base : String) (st : BrowserState) : CyAction → BrowserState
  | CyAction.visit url => { st with url := appVisit base st url }
  | CyAction.clearLocalStorage => { st with localStorageKeys := [] }
  | CyAction.clearCookies => { st with cookieNames := [] }
  | CyAction.clearSessionStorage => { st with sessionStorageKeys := [] }
  | CyAction.deleteIndexedDB n =>
    { st with indexedDBNames := st.indexedDBNames.filter fun m => m != n }
  | _ => st

/-- Run a trace of actions left to right. -/
def runActions (base : String) (st : BrowserState) (as : List CyAction) : BrowserState :=
  as.foldl (applyAction base) st

/-- `logout` from `commands.ts`: clears local storage, cookies and the
Firebase IndexedDB databases, then visits the login page and asserts the
URL contains `/login`. -/
def logout (base : String) (env : IndexedDBEnv) : List CyAction :=
  [CyAction.clearLocalStorage, CyAction.clearCookies] ++
    clearFirebaseIndexedDB env ++
    [CyAction.visit (getUrl base "login"), CyAction.urlShouldContain "/login"]

theorem isPrefixOf_self (l : List Char) : l.isPrefixOf l = true := by
  induction l with
  | nil => rfl
  | cons a as ih => simp [List.isPrefixOf, ih]

theorem containsSub_append_right (a : List Char) {b n : List Char}
    (h : containsSub b n = true) : containsSub (a ++ b) n = true := by
  induction a with
  | nil => exact h
  | cons c cs ih =>
    rw [List.cons_append, containsSub, ih]
    simp

theorem containsSub_self (l : List Char) : containsSub l l = true := by
  cases l with
  | nil => rfl
  | cons c t => simp [containsSub, isPrefixOf_self]

theorem strContains_append_suffix (a s : String) :
    strContains (a ++ s) s = true := by
  show containsSub (a ++ s).data s.data = true
  rw [String.data_append]
  exact containsSub_append_right a.data (containsSub_self s.data)

theorem runActions_delete_not_mem (base : String) (names : List String)
    (st : BrowserState) (n : String) (h : n ∉ st.indexedDBNames) :
    n ∉ (runActions base st (names.map CyAction.deleteIndexedDB)).indexedDBNames := by
  induction names generalizing st with
  | nil => exact h
  | cons m ms ih =>
    show n ∉ (runActions base (applyAction base st (CyAction.deleteIndexedDB m))
      (ms.map CyAction.deleteIndexedDB)).indexedDBNames
    apply ih
    intro hm
    exact h (List.mem_of_mem_filter hm)

theorem runActions_delete_removes (base : String) (names : List String)
    (st : BrowserState) (n : String) (hn : n ∈ names) :
    n ∉ (runActions base st (names.map CyAction.deleteIndexedDB)).indexedDBNames := by
  induction names generalizing st with
  | nil => cases hn
  | cons m ms ih =>
    show n ∉ (runActions base (applyAction base st (CyAction.deleteIndexedDB m))
      (ms.map CyAction.deleteIndexedDB)).indexedDBNames
    rcases List.mem_cons.mp hn with rfl | hmem
    · apply runActions_delete_not_mem
      simp [applyAction, List.mem_filter]
    · exact ih _ hmem

theorem runActions_delete_fields (base : String) (names : List String)
    (st : BrowserState) :
    (runActions base st (names.map CyAction.deleteIndexedDB)).url = st.url
    ∧ (runActions base st (names.map CyAction.deleteIndexedDB)).localStorageKeys
      = st.localStorageKeys
    ∧ (runActions base st (names.map CyAction.deleteIndexedDB)).cookieNames
      = st.cookieNames
    ∧ (runActions base st (names.map CyAction.deleteIndexedDB)).sessionStorageKeys
      = st.sessionStorageKeys := by
  induction names generalizing st with
  | nil => exact ⟨rfl, rfl, rfl, rfl⟩
  | cons m ms ih =>
    show (runActions base (applyAction base st (CyAction.deleteIndexedDB m))
        (ms.map CyAction.deleteIndexedDB)).url = st.url ∧ _
    exact ih _

/-- After `cleanFirebaseState` runs, no persisted credential survives in the
model (under either the database-enumeration path, whose result is the
state's database list, or the fallback path). -/
theorem cleanFirebaseState_drops_credential (base : String) (env : IndexedDBEnv)
    (st : BrowserState)
    (henv : (env.hasDatabasesMethod = true ∧ env.databasesResult = some st.indexedDBNames)
      ∨ env.hasDatabasesMethod = false ∨ env.databasesResult = none) :
    hasPersistedCredential (runActions base st (cleanFirebaseState env)) = false := by
  have hsplit : runActions base st (cleanFirebaseState env)
      = applyAction base
          (runActions base
            (applyAction base (applyAction base st CyAction.clearLocalStorage)
              CyAction.clearCookies)
            (clearFirebaseIndexedDB env))
          CyAction.clearSessionStorage := by
    unfold cleanFirebaseState runActions
    rw [List.foldl_append, List.foldl_append]
    rfl
  set st2 := applyAction base (applyAction base st CyAction.clearLocalStorage)
    CyAction.clearCookies with hst2
  obtain ⟨names, hmid, hcover⟩ :
      ∃ names : List String,
        clearFirebaseIndexedDB env = List.map CyAction.deleteIndexedDB names
        ∧ ("firebaseLocalStorageDb" ∈ names
            ∨ "firebaseLocalStorageDb" ∉ st.indexedDBNames) := by
    rcases henv with ⟨hm, hres⟩ | h
    · refine ⟨st.indexedDBNames.filter (fun n => strStartsWith n "firebase"),
        by simp [clearFirebaseIndexedDB, hm, hres], ?_⟩
      by_cases hfi : "firebaseLocalStorageDb" ∈ st.indexedDBNames
      · exact Or.inl (List.mem_filter.mpr ⟨hfi, by decide⟩)
      · exact Or.inr hfi
    · refine ⟨firebaseDBNames, ?_, Or.inl (by decide)⟩
      rcases h with h | h
      · simp [clearFirebaseIndexedDB, h, clearFirebaseIndexedDBFallback]
      · rcases hm : env.hasDatabasesMethod with _ | _ <;>
          simp [clearFirebaseIndexedDB, hm, h, clearFirebaseIndexedDBFallback]
  have hst2names : st2.indexedDBNames = st.indexedDBNames := rfl
  have hnodb : "firebaseLocalStorageDb"
      ∉ (runActions base st2 (names.map CyAction.deleteIndexedDB)).indexedDBNames := by
    rcases hcover with hin | hout
    · exact runActions_delete_removes base names st2 _ hin
    · exact runActions_delete_not_mem base names st2 _ (hst2names ▸ hout)
  obtain ⟨-, hLS, hck, -⟩ := runActions_delete_fields base names st2
  have hl : st2.localStorageKeys = [] := rfl
  have hc : st2.cookieNames = [] := rfl
  rw [hsplit, hmid]
  simp only [applyAction, hasPersistedCredential, hLS, hck, hl, hc]
  simpa using hnodb

/-- C7: clearing the authentication state and then visiting any
authenticated route leaves the browser on a URL containing the login path;
in particular `logout` ends with the browser URL containing `/login`. -/
theorem clean_then_visit_redirects_to_login (base : String) (env : IndexedDBEnv)
    (st : BrowserState) (routeUrl : String)
    (henv : (env.hasDatabasesMethod = true ∧ env.databasesResult = some st.indexedDBNames)
      ∨ env.hasDatabasesMethod = false ∨ env.databasesResult = none)
    (hroute : requiresAuth routeUrl = true) :
    strContains (runActions base st
        (cleanFirebaseState env ++ [CyAction.visit routeUrl])).url "/login" = true
    ∧ strContains (runActions base st (logout base env)).url "/login" = true := by
  constructor
  · have hrun : runActions base st (cleanFirebaseState env ++ [CyAction.visit routeUrl])
        = applyAction base (runActions base st (cleanFirebaseState env))
            (CyAction.visit routeUrl) := by
      unfold runActions
      rw [List.foldl_append]
      rfl
    rw [hrun]
    have hcred := cleanFirebaseState_drops_credential base env st henv
    show strContains (appVisit base (runActions base st (cleanFirebaseState env))
      routeUrl) "/login" = true
    rw [appVisit, hroute, hcred]
    simp only [Bool.not_false, Bool.and_self, if_true]
    rw [getUrl_login base]
    exact strContains_append_suffix base "/login"
  · have hlogin : strContains (getUrl base "login") "/login" = true := by
      rw [getUrl_login base]
      exact strContains_append_suffix base "/login"
    have hreq : requiresAuth (getUrl base "login") = false := by
      simp [requiresAuth, hlogin]
    have hrun : runActions base st (logout base env)
        = applyAction base
            (applyAction base
              (runActions base
                (applyAction base (applyAction base st CyAction.clearLocalStorage)
                  CyAction.clearCookies)
                (clearFirebaseIndexedDB env))
              (CyAction.visit (getUrl base "login")))
            (CyAction.urlShouldContain "/login") := by
      unfold logout runActions
      rw [List.foldl_append, List.foldl_append]
      rfl
    rw [hrun]
    show strContains (appVisit base _ (getUrl base "login")) "/login" = true
    rw [appVisit, hreq]
    simp only [Bool.false_and, if_false]
    exact hlogin

/-- Witness for C7: a fallback-path browser with a persisted Firebase
credential, cleaned and then pointed at the authenticated dashboard
route. -/
theorem clean_then_visit_redirects_to_login_witness :
    strContains (runActions "https://staging.viernes.app"
        ⟨"https://staging.viernes.app/", ["viernes-session"], ["auth-cookie"],
         ["draft"], ["firebaseLocalStorageDb"]⟩
        (cleanFirebaseState ⟨false, none⟩ ++
          [CyAction.visit "https://staging.viernes.app/"])).url "/login" = true
    ∧ strContains (runActions "https://staging.viernes.app"
        ⟨"https://staging.viernes.app/", ["viernes-session"], ["auth-cookie"],
         ["draft"], ["firebaseLocalStorageDb"]⟩
        (logout "https://staging.viernes.app" ⟨false, none⟩)).url "/login" = true :=
  clean_then_visit_redirects_to_login "https://staging.viernes.app" ⟨false, none⟩
    ⟨"https://staging.viernes.app/", ["viernes-session"], ["auth-cookie"],
     ["draft"], ["firebaseLocalStorageDb"]⟩
    "https://staging.viernes.app/" (Or.inr (Or.inl rfl)) (by decide)

/-! ## Failed-login error notifications -/

theorem isPrefixOf_subset :
    ∀ {l₁ l₂ : List Char}, l₁.isPrefixOf l₂ = true → ∀ c ∈ l₁, c ∈ l₂ := by
  intro l₁
  induction l₁ with
  | nil =>
    intro l₂ h c hc
    cases hc
  | cons a as ih =>
    intro l₂ h c hc
    cases l₂ with
    | nil => simp [List.isPrefixOf] at h
    | cons b bs =>
      simp only [List.isPrefixOf, Bool.and_eq_true, beq_iff_eq] at h
      obtain ⟨h1, h2⟩ := h
      rcases List.mem_cons.mp hc with rfl | hmem
      · rw [h1]
        exact List.mem_cons_self b bs
      · exact List.mem_cons_of_mem b (ih h2 c hmem)

theorem containsSub_mem {hay needle : List Char} (h : containsSub hay needle = true) :
    ∀ c ∈ needle, c ∈ hay := by
  induction hay with
  | nil =>
    intro c hc
    cases needle with
    | nil => cases hc
    | cons d ds => simp [containsSub, List.isPrefixOf] at h
  | cons a as ih =>
    intro c hc
    rw [containsSub, Bool.or_eq_true] at h
    rcases h with h | h
    · exact isPrefixOf_subset h c hc
    · exact List.mem_cons_of_mem a (ih h c hc)

/-- Modelled from the spec: the fixed generic error-notification title the
application shows for a failed login; it does not echo the form inputs. -/
def genericLoginErrorTitle : String := "Invalid credentials"

/-- Outcome of submitting the login form with an unknown or mismatched
email/password pair: the URL the browser stays on and the error toast's
title. -/
structure FailedLoginOutcome where
  url : String
  toastTitle : String

/-- Modelled from the spec: a failed login keeps the browser on the login
route and shows the error toast with the fixed generic title, whatever the
submitted pair was. -/
def appFailedLogin (base : String) (_email _password : String) : FailedLoginOutcome :=
  { url := getUrl base "login", toastTitle := genericLoginErrorTitle }

/-- C8 as stated fails on a degenerate input: the empty string is a
possible mismatched submitted password, and every toast title contains the
empty string as a substring, so the title cannot avoid containing that
submitted password. -/
theorem failedLogin_echo_counterexample :
    strContains (appFailedLogin "https://staging.viernes.app"
      "invalid@example.com" "").toastTitle "" = true := by
  decide

/-- C8 amended: a failed login stays on a URL containing the login path and
shows an error toast whose title is one fixed generic message independent
of the submitted email and password; consequently the title never contains
the submitted email (an email address contains `@`, which the generic title
lacks), and contains the submitted password only in the degenerate case
that the password happens to be a substring of that fixed title (such as
the empty password). -/
theorem failedLogin_no_credential_echo (base email password : String)
    (hemail : strContains email "@" = true)
    (hpw : strContains genericLoginErrorTitle password = false) :
    strContains (appFailedLogin base email password).url "/login" = true
    ∧ (∀ e2 p2, (appFailedLogin base e2 p2).toastTitle
        = (appFailedLogin base email password).toastTitle)
    ∧ strContains (appFailedLogin base email password).toastTitle email = false
    ∧ strContains (appFailedLogin base email password).toastTitle password = false := by
  refine ⟨?_, fun e2 p2 => rfl, ?_, hpw⟩
  · show strContains (getUrl base "login") "/login" = true
    rw [getUrl_login]
    exact strContains_append_suffix base "/login"
  · show strContains genericLoginErrorTitle email = false
    have hat : '@' ∈ email.data := containsSub_mem hemail '@' (by decide)
    cases hb : strContains genericLoginErrorTitle email with
    | false => rfl
    | true => exact absurd (containsSub_mem hb '@' hat) (by decide)

/-- Witness for C8 (amended) at the pair the suite's security scenario
submits. -/
theorem failedLogin_no_credential_echo_witness :
    strContains (appFailedLogin "https://staging.viernes.app"
      "invalid@example.com" "wrongpassword").url "/login" = true
    ∧ (∀ e2 p2, (appFailedLogin "https://staging.viernes.app" e2 p2).toastTitle
        = (appFailedLogin "https://staging.viernes.app"
            "invalid@example.com" "wrongpassword").toastTitle)
    ∧ strContains (appFailedLogin "https://staging.viernes.app"
        "invalid@example.com" "wrongpassword").toastTitle "invalid@example.com" = false
    ∧ strContains (appFailedLogin "https://staging.viernes.app"
        "invalid@example.com" "wrongpassword").toastTitle "wrongpassword" = false :=
  failedLogin_no_credential_echo "https://staging.viernes.app"
    "invalid@example.com" "wrongpassword" (by decide) (by decide)

/-! ## `retryAuth` (FirebaseTestUtils)

`FirebaseTestUtils.retryAuth` invokes an operation and, when it throws,
increments `retryCount`, waits `2^retryCount * FIREBASE_DELAYS.BETWEEN_ATTEMPTS`
and recurses while `retryCount < maxRetries`, re-throwing the error
otherwise.  The (stateful) operation is modelled by `outcomes : Nat → Option ε`,
where `outcomes n` is the error thrown by its `(n+1)`-th invocation (`none`
when that invocation returns normally).
-/

/-- `FIREBASE_DELAYS.BETWEEN_ATTEMPTS` from the Firebase test utilities. -/
def BETWEEN_ATTEMPTS : Nat := 100

/-- Observable result of `retryAuth`: total invocations of the operation,
the waits performed before each retry (in order), and the re-raised error
(`none` when an attempt returned normally). -/
structure RetryResult (ε : Type) where
  calls : Nat
  waits : List Nat
  outcome : Option ε
deriving Repr, DecidableEq

/-- The inner `attemptAuth` closure of `retryAuth`; `retryCount` counts the
failures so far, and equals the number of previous invocations. -/
def attemptAuth {ε : Type} (outcomes : Nat → Option ε) (maxRetries retryCount : Nat) :
    RetryResult ε :=
  match outcomes retryCount with
  | none => { calls := 1, waits := [], outcome := none }
  | some e =>
    if retryCount + 1 < maxRetries then
      let r := attemptAuth outcomes maxRetries (retryCount + 1)
      { calls := r.calls + 1,
        waits := 2 ^ (retryCount + 1) * BETWEEN_ATTEMPTS :: r.waits,
        outcome := r.outcome }
    else
      { calls := 1, waits := [], outcome := some e }
termination_by maxRetries - retryCount
decreasing_by omega

/-- `retryAuth`, with the source's default `maxRetries = 3`. -/
def retryAuth {ε : Type} (outcomes : Nat → Option ε) (maxRetries : Nat := 3) :
    RetryResult ε :=
  attemptAuth outcomes maxRetries 0

theorem attemptAuth_eq {ε : Type} (outcomes : Nat → Option ε)
    (maxRetries retryCount : Nat) :
    attemptAuth outcomes maxRetries retryCount
      = match outcomes retryCount with
        | none => { calls := 1, waits := [], outcome := none }
        | some e =>
          if retryCount + 1 < maxRetries then
            { calls := (attemptAuth outcomes maxRetries (retryCount + 1)).calls + 1,
              waits := 2 ^ (retryCount + 1) * BETWEEN_ATTEMPTS ::
                (attemptAuth outcomes maxRetries (retryCount + 1)).waits,
              outcome := (attemptAuth outcomes maxRetries (retryCount + 1)).outcome }
          else { calls := 1, waits := [], outcome := some e } := by
  rw [attemptAuth]

theorem attemptAuth_spec {ε : Type} (outcomes : Nat → Option ε) (maxRetries : Nat) :
    ∀ fuel retryCount, maxRetries - retryCount ≤ fuel →
      1 ≤ (attemptAuth outcomes maxRetries retryCount).calls
      ∧ (attemptAuth outcomes maxRetries retryCount).calls
        ≤ max (maxRetries - retryCount) 1
      ∧ (attemptAuth outcomes maxRetries retryCount).waits
        = (List.range ((attemptAuth outcomes maxRetries retryCount).calls - 1)).map
            (fun n => 2 ^ (retryCount + n + 1) * BETWEEN_ATTEMPTS)
      ∧ ((∀ n, retryCount ≤ n → n < maxRetries → (outcomes n).isSome = true) →
          retryCount < maxRetries →
          (attemptAuth outcomes maxRetries retryCount).outcome
            = outcomes (maxRetries - 1)
          ∧ (attemptAuth outcomes maxRetries retryCount).calls
            = maxRetries - retryCount) := by
  intro fuel
  induction fuel with
  | zero =>
    intro retryCount hle
    cases hout : outcomes retryCount with
    | none =>
      have hA : attemptAuth outcomes maxRetries retryCount
          = { calls := 1, waits := [], outcome := none } := by
        rw [attemptAuth_eq, hout]
      rw [hA]
      refine ⟨le_refl 1, by simp, by simp, ?_⟩
      intro hall hlt
      have hs := hall retryCount (le_refl _) hlt
      rw [hout] at hs
      cases hs
    | some e =>
      have hnlt : ¬(retryCount + 1 < maxRetries) := by omega
      have hA : attemptAuth outcomes maxRetries retryCount
          = { calls := 1, waits := [], outcome := some e } := by
        rw [attemptAuth_eq, hout]
        simp [if_neg hnlt]
      rw [hA]
      refine ⟨le_refl 1, by simp, by simp, ?_⟩
      intro hall hlt
      exact absurd hlt (by omega)
  | succ fuel ih =>
    intro retryCount hle
    cases hout : outcomes retryCount with
    | none =>
      have hA : attemptAuth outcomes maxRetries retryCount
          = { calls := 1, waits := [], outcome := none } := by
        rw [attemptAuth_eq, hout]
      rw [hA]
      refine ⟨le_refl 1, by simp, by simp, ?_⟩
      intro hall hlt
      have hs := hall retryCount (le_refl _) hlt
      rw [hout] at hs
      cases hs
    | some e =>
      by_cases hlt2 : retryCount + 1 < maxRetries
      · obtain ⟨h1, h2, h3, h4⟩ := ih (retryCount + 1) (by omega)
        have hA : attemptAuth outcomes maxRetries retryCount
            = { calls := (attemptAuth outcomes maxRetries (retryCount + 1)).calls + 1,
                waits := 2 ^ (retryCount + 1) * BETWEEN_ATTEMPTS ::
                  (attemptAuth outcomes maxRetries (retryCount + 1)).waits,
                outcome := (attemptAuth outcomes maxRetries (retryCount + 1)).outcome } := by
          rw [attemptAuth_eq, hout]
          simp [if_pos hlt2]
        have hcalls : (attemptAuth outcomes maxRetries retryCount).calls
            = (attemptAuth outcomes maxRetries (retryCount + 1)).calls + 1 := by
          rw [hA]
        have hwaits : (attemptAuth outcomes maxRetries retryCount).waits
            = 2 ^ (retryCount + 1) * BETWEEN_ATTEMPTS ::
                (attemptAuth outcomes maxRetries (retryCount + 1)).waits := by
          rw [hA]
        have houtc : (attemptAuth outcomes maxRetries retryCount).outcome
            = (attemptAuth outcomes maxRetries (retryCount + 1)).outcome := by
          rw [hA]
        refine ⟨by omega, by omega, ?_, ?_⟩
        · rw [hwaits, h3, hcalls]
          rw [show (attemptAuth outcomes maxRetries (retryCount + 1)).calls + 1 - 1
              = ((attemptAuth outcomes maxRetries (retryCount + 1)).calls - 1) + 1
            from by omega]
          rw [List.range_succ_eq_map, List.map_cons, List.map_map]
          refine congrArg₂ List.cons ?_ ?_
          · rw [show retryCount + 0 + 1 = retryCount + 1 from by omega]
          · refine List.map_congr_left fun n _ => ?_
            show 2 ^ (retryCount + 1 + n + 1) * BETWEEN_ATTEMPTS
              = 2 ^ (retryCount + (n + 1) + 1) * BETWEEN_ATTEMPTS
            rw [show retryCount + 1 + n + 1 = retryCount + (n + 1) + 1 from by omega]
        · intro hall hlt
          obtain ⟨ho, hc⟩ := h4 (fun n hn1 hn2 => hall n (by omega) hn2) hlt2
          constructor
          · rw [houtc, ho]
          · rw [hcalls, hc]
            omega
      · have hA : attemptAuth outcomes maxRetries retryCount
            = { calls := 1, waits := [], outcome := some e } := by
          rw [attemptAuth_eq, hout]
          simp [if_neg hlt2]
        rw [hA]
        refine ⟨le_refl 1, by simp, by simp, ?_⟩
        intro hall hlt
        have hm : maxRetries = retryCount + 1 := by omega
        constructor
        · show some e = outcomes (maxRetries - 1)
          rw [hm]
          simpa using hout.symm
        · show 1 = maxRetries - retryCount
          omega

/-- C6 amended: `retryAuth` invokes the operation at most
`max maxRetries 1` times in total (3 by default; a `maxRetries` of zero
still performs one attempt); before the `n`-th retry it waits `2^n` times
the base delay of 100 ms; and when all attempts fail it performs
`maxRetries` invocations (for `maxRetries ≥ 1`) and re-raises the error of
the last attempt rather than swallowing it. -/
theorem retryAuth_backoff_contract {ε : Type} (outcomes : Nat → Option ε)
    (maxRetries : Nat) :
    1 ≤ (retryAuth outcomes maxRetries).calls
    ∧ (retryAuth outcomes maxRetries).calls ≤ max maxRetries 1
    ∧ (retryAuth outcomes maxRetries).waits
      = (List.range ((retryAuth outcomes maxRetries).calls - 1)).map
          (fun n => 2 ^ (n + 1) * BETWEEN_ATTEMPTS)
    ∧ ((∀ n, n < maxRetries → (outcomes n).isSome = true) → 1 ≤ maxRetries →
        (retryAuth outcomes maxRetries).outcome = outcomes (maxRetries - 1)
        ∧ (retryAuth outcomes maxRetries).calls = maxRetries) := by
  obtain ⟨h1, h2, h3, h4⟩ := attemptAuth_spec outcomes maxRetries maxRetries 0 (by omega)
  refine ⟨h1, by simpa using h2, by simpa using h3, ?_⟩
  intro hall hge
  have hres := h4 (fun n _ hn => hall n hn) (by omega)
  simpa using hres

/-- C6 counterexample: with `maxRetries = 0` the operation is still invoked
once, exceeding the claimed bound of at most `maxRetries` invocations in
total. -/
theorem retryAuth_zero_maxRetries_counterexample :
    (retryAuth (fun _ => some (0 : Nat)) 0).calls = 1
    ∧ ¬((retryAuth (fun _ => some (0 : Nat)) 0).calls ≤ 0) := by
  have h : (retryAuth (fun _ => some (0 : Nat)) 0).calls = 1 := by
    simp [retryAuth, attemptAuth]
  exact ⟨h, by rw [h]; decide⟩

/-- Witness for C6 (amended): an operation that always throws, run with the
default three retries. -/
theorem retryAuth_backoff_contract_witness :
    1 ≤ (retryAuth (fun _ => some (7 : Nat)) 3).calls
    ∧ (retryAuth (fun _ => some (7 : Nat)) 3).calls ≤ max 3 1
    ∧ (retryAuth (fun _ => some (7 : Nat)) 3).waits
      = (List.range ((retryAuth (fun _ => some (7 : Nat)) 3).calls - 1)).map
          (fun n => 2 ^ (n + 1) * BETWEEN_ATTEMPTS)
    ∧ (retryAuth (fun _ => some (7 : Nat)) 3).outcome = some 7
    ∧ (retryAuth (fun _ => some (7 : Nat)) 3).calls = 3 := by
  obtain ⟨h1, h2, h3, h4⟩ := retryAuth_backoff_contract (fun _ => some (7 : Nat)) 3
  obtain ⟨h5, h6⟩ := h4 (fun n _ => rfl) (by omega)
  exact ⟨h1, h2, h3, h5, h6⟩

end ViernesE2E
